import Mathlib

/-!
Verification development for the Allusion browser-extension clipper
(background script): the import bridge `importImage`, the filename
derivation `filenameFromUrl`, the tag-prompt heuristic pipeline
(lines 404-484 of the background script) and the `permute` helper.

Strings of the JavaScript source are modelled as `List Char` (`Str`),
so that every definition is executable and kernel-reducible.  Each
JavaScript string primitive used by the source is embedded explicitly:

  * `jsTrim`       models `String.prototype.trim` (ASCII whitespace),
  * `jsLower`      models `String.prototype.toLowerCase` (ASCII range),
  * `jsSplit`      models `String.prototype.split` with a string separator,
  * `replaceFirst` models `String.prototype.replace` with a string pattern
                   (JavaScript replaces only the first occurrence),
  * `replaceAll`   models `.replace(/pat/g, repl)` for a literal pattern,
  * `stripWeights` models `.replace(/:\d+(\.\d+)?/g, "")`,
  * `splitParens`  models `.split(/ \(|\)/)`.

Recursions that advance by a matched pattern (more than one character at
a time) are written with an explicit fuel argument equal to the input
length; one character at least is consumed per step, so the fuel never
runs out on the defining call, and the fuel-zero fallback is chosen to
agree with the exhausted-input case.
-/

/-- Strings of the JavaScript source, as explicit character lists. -/
abbrev Str := List Char

/-- Characters removed by `String.prototype.trim` (ASCII part). -/
def jsSpace (c : Char) : Bool :=
  c == ' ' || c == '\t' || c == '\n' || c == '\r' || c == '\x0B' || c == '\x0C'

/-- Model of `s.trim()`: drop leading and trailing whitespace. -/
def jsTrim (s : Str) : Str :=
  ((s.dropWhile jsSpace).reverse.dropWhile jsSpace).reverse

/-- Model of `c.toLowerCase()` on a single character (ASCII range). -/
def charLower (c : Char) : Char :=
  if 'A' ≤ c && c ≤ 'Z' then Char.ofNat (c.toNat + 32) else c

/-- Model of `s.toLowerCase()` (ASCII range). -/
def jsLower (s : Str) : Str := s.map charLower

/-- Model of `s.startsWith(p)`. -/
def startsWithB (p s : Str) : Bool := List.isPrefixOf p s

/-- Model of `s.endsWith(p)`. -/
def endsWithB (p s : Str) : Bool := List.isSuffixOf p s

/-- Model of `s.includes(p)`: some position of `s` starts with `p`. -/
def containsSeq (pat : Str) : Str → Bool
  | [] => startsWithB pat []
  | c :: cs => startsWithB pat (c :: cs) || containsSeq pat cs

/-- Worker for `jsSplit`; `acc` is the current chunk, reversed. -/
def jsSplitAux (sep : Str) : Nat → Str → Str → List Str
  | 0, acc, rest => [acc.reverse ++ rest]
  | _ + 1, acc, [] => [acc.reverse]
  | fuel + 1, acc, c :: cs =>
      if startsWithB sep (c :: cs) then
        acc.reverse :: jsSplitAux sep fuel [] (List.drop sep.length (c :: cs))
      else
        jsSplitAux sep fuel (c :: acc) cs

/-- Model of `s.split(sep)` for a non-empty string separator: the chunks
between the leftmost non-overlapping occurrences of `sep`.  The source
never splits on an empty separator; that case is mapped to `[s]`. -/
def jsSplit (sep s : Str) : List Str :=
  if sep = [] then [s] else jsSplitAux sep s.length [] s

/-- Worker for `replaceFirst`. -/
def replaceFirstAux (pat repl : Str) : Nat → Str → Str
  | 0, s => s
  | _ + 1, [] => []
  | fuel + 1, c :: cs =>
      if startsWithB pat (c :: cs) then
        repl ++ List.drop pat.length (c :: cs)
      else
        c :: replaceFirstAux pat repl fuel cs

/-- Model of `s.replace(pat, repl)` with a plain string pattern:
JavaScript replaces only the first occurrence of `pat`. -/
def replaceFirst (pat repl s : Str) : Str :=
  if pat = [] then s else replaceFirstAux pat repl s.length s

/-- Worker for `replaceAll`. -/
def replaceAllAux (pat repl : Str) : Nat → Str → Str
  | 0, s => s
  | _ + 1, [] => []
  | fuel + 1, c :: cs =>
      if startsWithB pat (c :: cs) then
        repl ++ replaceAllAux pat repl fuel (List.drop pat.length (c :: cs))
      else
        c :: replaceAllAux pat repl fuel cs

/-- Model of `s.replace(/pat/g, repl)` for a literal pattern: replace all
leftmost non-overlapping occurrences. -/
def replaceAll (pat repl s : Str) : Str :=
  if pat = [] then s else replaceAllAux pat repl s.length s

/-- Worker for `stripWeights`.  A match of `:\d+(\.\d+)?` consumes the
colon, a maximal non-empty digit run, and optionally a dot followed by a
further maximal non-empty digit run; scanning resumes after the match. -/
def stripWeightsAux : Nat → Str → Str
  | 0, s => s
  | _ + 1, [] => []
  | fuel + 1, c :: cs =>
      if c = ':' then
        if (cs.takeWhile Char.isDigit) = [] then
          c :: stripWeightsAux fuel cs
        else
          match cs.dropWhile Char.isDigit with
          | '.' :: cs2 =>
              if (cs2.takeWhile Char.isDigit) = [] then
                stripWeightsAux fuel ('.' :: cs2)
              else
                stripWeightsAux fuel (cs2.dropWhile Char.isDigit)
          | r1 => stripWeightsAux fuel r1
      else
        c :: stripWeightsAux fuel cs

/-- Model of `line.replace(/:\d+(\.\d+)?/g, "")`. -/
def stripWeights (s : Str) : Str := stripWeightsAux s.length s

/-- Worker for `splitParens`; models `part.split(/ \(|\)/)`: a split
point is either the two-character sequence space-open-paren or a single
close-paren, tried in that order at each position. -/
def splitParensAux : Str → Str → List Str
  | acc, [] => [acc.reverse]
  | acc, ' ' :: '(' :: cs => acc.reverse :: splitParensAux [] cs
  | acc, ')' :: cs => acc.reverse :: splitParensAux [] cs
  | acc, c :: cs => splitParensAux (c :: acc) cs

/-- Model of `part.split(/ \(|\)/)`. -/
def splitParens (s : Str) : List Str := splitParensAux [] s

/-- Model of the loop body of `permute`: pair each element of the list
with the list of the remaining elements, in index order.  This mirrors
`arr[i]` together with `arr.slice(0, i).concat(arr.slice(i + 1))`. -/
def selectEach {α : Type} : List α → List (α × List α)
  | [] => []
  | x :: xs => (x, xs) :: (selectEach xs).map (fun p => (p.1, x :: p.2))

/-- Worker for `permute`, with fuel.  The source recursion removes one
element per level, so fuel equal to the list length is exact; at fuel
zero the list is empty and `[l]` agrees with the base case. -/
def permuteAux {α : Type} : Nat → List α → List (List α)
  | 0, l => [l]
  | fuel + 1, l =>
      if l.length ≤ 1 then [l]
      else (selectEach l).flatMap (fun p => (permuteAux fuel p.2).map (fun perm => p.1 :: perm))

/-- Model of the `permute` helper of the background script. -/
def permute {α : Type} (l : List α) : List (List α) := permuteAux l.length l

/-- Decimal digit character, as produced by JavaScript number-to-string
conversion of a value below ten. -/
def digitChar (n : Nat) : Char :=
  match n with
  | 0 => '0' | 1 => '1' | 2 => '2' | 3 => '3' | 4 => '4'
  | 5 => '5' | 6 => '6' | 7 => '7' | 8 => '8' | _ => '9'

/-- Worker for `natToStr`, most significant digit first. -/
def natToStrAux : Nat → Nat → Str
  | 0, _ => []
  | fuel + 1, n =>
      if n < 10 then [digitChar n]
      else natToStrAux fuel (n / 10) ++ [digitChar (n % 10)]

/-- Model of JavaScript number-to-string conversion for a natural
number, as used to build the import-error notification id. -/
def natToStr (n : Nat) : Str := natToStrAux (n + 1) n

/-- Decimal value of a digit string; left inverse of `natToStr`. -/
def strVal (s : Str) : Nat :=
  s.foldl (fun acc c => acc * 10 + (c.toNat - 48)) 0

/-! ## Filename derivation (`filenameFromUrl`, lines 269-280) -/

/-- Model of `filenameFromUrl`: the source computes
`srcUrl.split('/').pop().split('#')[0].split('?')[0]`, then falls back
when the url starts with `data:image/` or the segment has no dot, and
otherwise truncates the segment at the first dot via
`filename.slice(0, filename.indexOf('.'))`. -/
def filenameFromUrl (srcUrl fallback : Str) : Str :=
  let f0 := (jsSplit ['/'] srcUrl).getLastD []
  let f1 := (jsSplit ['#'] f0).headD []
  let filename := (jsSplit ['?'] f1).headD []
  if startsWithB "data:image/".data srcUrl || !(filename.contains '.') then
    fallback
  else
    filename.take (filename.findIdx (· == '.'))

/-! ## Tag-prompt pipeline (lines 411-478) -/

/-- Sentinel for an escaped open paren, from the source. -/
def TEMP_OPEN : Str := "TEMP_OPEN_PAREN".data

/-- Sentinel for an escaped close paren, from the source. -/
def TEMP_CLOSE : Str := "TEMP_CLOSE_PAREN".data

/-- Model of the line filter of step 1:
`!line.trim().startsWith('#') || line.trim().startsWith('#!allusion ')`. -/
def keepLine (line : Str) : Bool :=
  !(startsWithB "#".data (jsTrim line)) || startsWithB "#!allusion ".data (jsTrim line)

/-- Model of the marker removal of line 419 (first occurrence only,
per JavaScript string-pattern replace). -/
def stripMarker (line : Str) : Str :=
  replaceFirst "#!allusion ".data [] line

/-- Step 1 of the prompt pipeline: split into lines, filter comment
lines, strip the marker (lines 414-419). -/
def promptStep1 (prompt : Str) : List Str :=
  ((jsSplit "\n".data prompt).filter keepLine).map stripMarker

/-- Model of the per-fragment expansion (lines 447-453): split the
trimmed fragment on single spaces; a multi-word fragment is expanded to
all permutations of its words re-joined by single spaces, a single-word
fragment passes through as the original (untrimmed) fragment. -/
def processPart (part : Str) : List Str :=
  let words := jsSplit " ".data (jsTrim part)
  if 1 < words.length then
    (permute words).map (List.intercalate " ".data)
  else
    [part]

/-- Model of the per-line cleanup (lines 424-456): protect escaped
parens with sentinels, delete literal parens, restore the sentinels,
strip weight annotations, split on comma-space and on paren boundaries
discarding empty fragments, expand multi-word fragments to permutations,
and re-join with comma-space. -/
def cleanLine (line : Str) : Str :=
  let c1 := replaceAll "\\(".data TEMP_OPEN line
  let c2 := replaceAll "\\)".data TEMP_CLOSE c1
  let c3 := c2.filter (fun c => !(c == '(' || c == ')'))
  let c4 := replaceAll TEMP_OPEN "(".data c3
  let c5 := replaceAll TEMP_CLOSE ")".data c4
  let c6 := stripWeights c5
  let parts := (jsSplit ", ".data c6).flatMap
    (fun part => (splitParens part).filter (fun f => !f.isEmpty))
  List.intercalate ", ".data (parts.flatMap processPart)

/-- The flat comma-joined string of line 458:
the join of the prompt lines with comma-space, after steps 1-5. -/
def filteredPrompt (prompt : Str) : Str :=
  List.intercalate ", ".data ((promptStep1 prompt).map cleanLine)

/-- The normalized candidate stream of lines 463-465: split the filtered
prompt on commas, trim and lowercase each piece. -/
def promptCandidates (prompt : Str) : List Str :=
  (jsSplit ",".data (filteredPrompt prompt)).map (fun t => jsLower (jsTrim t))

/-- Model of `.filter((value, index, self) => self.indexOf(value) === index)`:
keep an element exactly when its index is the first index at which its
value occurs, preserving order. -/
def dedupFirst (l : List Str) : List Str :=
  (l.enum.filter (fun p => l.findIdx (· == p.2) == p.1)).map Prod.snd

/-- Model of the per-candidate lookup of lines 468-473: the first
existing tag whose lowercased form equals the candidate, else null. -/
def matchTag (existing : List Str) (c : Str) : Option Str :=
  existing.find? (fun tag => jsLower tag == c)

/-- Model of `promptTags` (lines 463-474): normalize, deduplicate
keeping first occurrences, drop empties, replace each candidate by the
canonical-cased existing tag when one matches case-insensitively, and
drop candidates without a match.  The source maps to null and filters
nulls; that composition is `List.filterMap`. -/
def promptTags (prompt : Str) (existing : List Str) : List Str :=
  (((dedupFirst (promptCandidates prompt)).filter
      (fun t => 0 < t.length)).filterMap (matchTag existing))

/-! ## Import bridge state model (`importImage`, lines 197-255) -/

/-- The persisted `lastSubmittedItem`.  JavaScript objects may lack
fields (the catch path starts from `{}`), so every field is optional;
`error` is the `error` flag field. -/
structure ClipItem where
  filename : Option Str
  url : Option Str
  imgBase64 : Option Str
  tagNames : Option (List Str)
  pageUrl : Option Str
  error : Option Bool
deriving DecidableEq, Repr

/-- A notification created with `chrome.notifications.create`. -/
structure Notif where
  id : Str
  clickable : Bool
deriving DecidableEq, Repr

/-- Background-context state touched by `importImage`: the persisted
single-slot storage, the notification-id counter `errCount`, the list of
created notifications in creation order, and the badge. -/
structure BgState where
  storage : Option ClipItem
  errCount : Nat
  notifications : List Notif
  badgeColor : Option Str
  badgeText : Option Str
deriving DecidableEq, Repr

/-- Outcome of the initial `imageAsBase64(url)` fetch-and-encode: the
base64 payload and the declared blob content type, or a thrown error. -/
inductive FetchOutcome where
  | ok (base64 : Str) (blobType : Str)
  | fail
deriving DecidableEq, Repr

/-- Notification id: the literal import-error- followed by the counter. -/
def notifId (n : Nat) : Str := "import-error-".data ++ natToStr n

/-- The red badge color literal of the source. -/
def redBadge : Str := "rgb(250, 52, 37)".data

/-- The blue badge color literal of the source. -/
def blueBadge : Str := "rgb(51, 153, 255)".data

/-- Final filename of lines 207-211: append the blob content subtype as
extension unless the given filename already ends with the subtype
string.  The subtype is `blob.type.split('/')[1]`. -/
def filenameWithExtension (filename blobType : Str) : Str :=
  let extension := (jsSplit "/".data blobType).getD 1 []
  if endsWithB extension filename then filename
  else filename ++ '.' :: extension

/-- The state written by the catch branch (lines 236-254) on top of a
current local `lastSubmittedItem` value `item`: create one clickable
notification keyed by the counter, bump the counter, set the red badge,
persist `item` with `error` set to true. -/
def failState (s : BgState) (item : ClipItem) : BgState :=
  { s with
    notifications := s.notifications ++ [⟨notifId s.errCount, true⟩]
    errCount := s.errCount + 1
    badgeColor := some redBadge
    badgeText := some "1".data
    storage := some { item with error := some true } }

/-- Model of `importImage(filename, url, pageUrl, tagNames)` (lines
197-255).  Network effects are oracles: `fetched` is the outcome of the
initial fetch-and-encode, `postOk` whether the POST to the import route
succeeds.  Returns the final state together with the body of the POST
that was issued (none when the initial fetch failed, so no POST
happened).  The whole body runs inside one try/catch, so the function is
total: no exception propagates. -/
def importImage (filename url : Str) (pageUrl : Option Str)
    (tagNames : List Str) (fetched : FetchOutcome) (postOk : Bool)
    (s : BgState) : BgState × Option ClipItem :=
  match fetched with
  | .fail =>
      -- the local `lastSubmittedItem` is still `{}` when the catch runs
      (failState s ⟨none, none, none, none, none, none⟩, none)
  | .ok base64 blobType =>
      let item : ClipItem :=
        { filename := some (filenameWithExtension filename blobType)
          url := some url
          imgBase64 := some base64
          tagNames := some tagNames
          pageUrl := pageUrl
          error := some false }
      -- optimistic write before the POST
      let s1 := { s with storage := some item }
      if postOk then
        ({ s1 with badgeColor := some blueBadge, badgeText := some "1".data }, some item)
      else
        (failState s1 item, some item)

/-! ## Message handlers (lines 305-347, 367-377, 392-484) -/

/-- A tag record of the `GET /tags` response; only `name` is consumed. -/
structure TagRec where
  name : Str
deriving DecidableEq, Repr

/-- Model of the `getTags` route of `handleMessage` (lines 332-340):
the fetch-and-parse outcome is an oracle (`none` models a network or
parse error, which the route catches), and the route returns the name
list, or the empty list on error. -/
def getTagsRoute (fetched : Option (List TagRec)) : List Str :=
  match fetched with
  | some tags => tags.map TagRec.name
  | none => []

/-- Arguments of an `importImage` invocation issued by a handler. -/
structure ImportCall where
  filename : Str
  url : Str
  pageUrl : Option Str
  tagNames : List Str
deriving DecidableEq, Repr

/-- Model of `sender.tab?.title || alt`: JavaScript falls back on a
missing or empty title. -/
def jsOr (o : Option Str) (d : Str) : Str :=
  match o with
  | some t => if t = [] then d else t
  | none => d

/-- Payload of the external `send-allusion-image` message. -/
structure SendImagePayload where
  src : Str
  alt : Str
  pageUrl : Str
  prompt : Option Str
deriving DecidableEq, Repr

/-- Model of the external-message listener (lines 392-484) up to the
`importImage` call.  The tags fetch at line 404 is NOT guarded by any
try/catch: when it fails the `await` rejects and the listener aborts
before `importImage` runs, modelled by `Except.error ()`.  Otherwise
the prompt (when present and non-empty, per JavaScript truthiness) is
parsed against the fetched tag names and the import call is issued. -/
def handleSendImage (tagsFetch : Option (List TagRec)) (tabTitle : Option Str)
    (payload : SendImagePayload) : Except Unit ImportCall :=
  let filename := filenameFromUrl payload.src (jsOr tabTitle payload.alt)
  match tagsFetch with
  | none => .error ()
  | some tags =>
      let existingTags := tags.map TagRec.name
      let ptags :=
        match payload.prompt with
        | some p => if p = [] then [] else promptTags p existingTags
        | none => []
      .ok ⟨filename, payload.src, some payload.pageUrl, ptags⟩

/-- Model of the `chrome.notifications.onClicked` listener (lines
367-377).  The notifications API invokes the callback with the
notification id only, so the second parameter `buttonIndex` of the
registered listener is undefined (`none`); the guard compares it with
`=== 0`.  A truthy stored item is a present one.  On success the
listener calls `importImage(item.filename, item.url)`, so the page url
is undefined and the tag list defaults to empty. -/
def notificationClicked (id : Str) (buttonIndex : Option Nat)
    (stored : Option ClipItem) :
    Option (Option Str × Option Str × Option Str × List Str) :=
  match stored with
  | none => none
  | some item =>
      if startsWithB "import-error".data id && buttonIndex == some 0 then
        some (item.filename, item.url, none, [])
      else
        none

/-! ## Permutation lemmas for `permute` -/

/-- Each selected pair re-assembles to a permutation of the list. -/
theorem selectEach_perm {α : Type} (l : List α) :
    ∀ p ∈ selectEach l, (p.1 :: p.2).Perm l := by
  induction l with
  | nil => intro p hp; simp [selectEach] at hp
  | cons x xs ih =>
    intro p hp
    simp only [selectEach, List.mem_cons, List.mem_map] at hp
    rcases hp with rfl | ⟨q, hq, rfl⟩
    · exact List.Perm.refl _
    · exact (List.Perm.swap x q.1 q.2).trans ((ih q hq).cons x)

/-- Every member of the list is selected together with some rest. -/
theorem selectEach_exists {α : Type} (l : List α) (a : α) (ha : a ∈ l) :
    ∃ rest, (a, rest) ∈ selectEach l := by
  induction l with
  | nil => cases ha
  | cons x xs ih =>
    rcases List.mem_cons.mp ha with rfl | h
    · exact ⟨xs, List.mem_cons_self _ _⟩
    · rcases ih h with ⟨rest, hrest⟩
      refine ⟨x :: rest, ?_⟩
      simp only [selectEach, List.mem_cons, List.mem_map]
      exact Or.inr ⟨(a, rest), hrest, rfl⟩

/-- Completeness of the permutation generator: with enough fuel, every
permutation of the input list is produced. -/
theorem mem_permuteAux_of_perm {α : Type} :
    ∀ (fuel : Nat) (l q : List α), l.length ≤ fuel → q.Perm l → q ∈ permuteAux fuel l := by
  intro fuel
  induction fuel with
  | zero =>
    intro l q hlen hq
    have hl : l = [] := List.eq_nil_of_length_eq_zero (Nat.le_zero.mp hlen)
    subst hl
    have hq0 : q = [] := List.perm_nil.mp hq
    subst hq0
    simp [permuteAux]
  | succ fuel ih =>
    intro l q hlen hq
    by_cases hshort : l.length ≤ 1
    · rcases l with _ | ⟨a, _ | ⟨b, t⟩⟩
      · have hq0 : q = [] := List.perm_nil.mp hq
        subst hq0; simp [permuteAux]
      · have hq1 : q = [a] := List.perm_singleton.mp hq
        subst hq1; simp [permuteAux]
      · simp at hshort
    · push_neg at hshort
      rcases q with _ | ⟨a, q'⟩
      · have hlq := hq.length_eq
        simp at hlq
        omega
      · have ha : a ∈ l := hq.subset (List.mem_cons_self a q')
        rcases selectEach_exists l a ha with ⟨rest, hrest⟩
        have hperm : (a :: rest).Perm l := selectEach_perm l (a, rest) hrest
        have hq' : q'.Perm rest := (hq.trans hperm.symm).cons_inv
        have hlrest : rest.length ≤ fuel := by
          have hle := hperm.length_eq
          simp at hle
          omega
        have hmem := ih rest q' hlrest hq'
        simp only [permuteAux, if_neg (Nat.not_le.mpr hshort)]
        exact List.mem_flatMap.mpr ⟨(a, rest), hrest, List.mem_map.mpr ⟨q', hmem, rfl⟩⟩

/-- C5: for every fragment with more than one word (split on single
ASCII spaces), the expansion step produces every permutation of the
words joined by single spaces, and in particular the prompt
"blue eyes" against the existing tag set containing only "eyes blue"
yields an output that includes "eyes blue". -/
theorem processPart_permutations :
    (∀ (part : Str) (q : List Str),
        1 < (jsSplit " ".data (jsTrim part)).length →
        q.Perm (jsSplit " ".data (jsTrim part)) →
        List.intercalate " ".data q ∈ processPart part) ∧
    "eyes blue".data ∈ promptTags "blue eyes".data ["eyes blue".data] := by
  constructor
  · intro part q hlen hperm
    have hmem : q ∈ permute (jsSplit " ".data (jsTrim part)) :=
      mem_permuteAux_of_perm _ _ _ (Nat.le_refl _) hperm
    simp only [processPart, if_pos hlen]
    exact List.mem_map.mpr ⟨q, hmem, rfl⟩
  · decide

/-- Witness for C5: the two-word fragment "a b" generates the swapped
permutation "b a", by the theorem itself at a concrete input. -/
theorem processPart_permutations_witness :
    List.intercalate " ".data ["b".data, "a".data] ∈ processPart "a b".data ∧
    "eyes blue".data ∈ promptTags "blue eyes".data ["eyes blue".data] :=
  ⟨processPart_permutations.1 "a b".data ["b".data, "a".data] (by decide) (by decide),
   processPart_permutations.2⟩

/-! ## Soundness of the prompt tag output (C1) -/

/-- A successful candidate lookup returns a member of the existing set. -/
theorem matchTag_mem {ex : List Str} {c t : Str} (h : matchTag ex c = some t) :
    t ∈ ex :=
  List.mem_of_find?_eq_some h

/-- A successful candidate lookup matches case-insensitively: the
lowercased result equals the candidate. -/
theorem matchTag_lower {ex : List Str} {c t : Str} (h : matchTag ex c = some t) :
    jsLower t = c := by
  have hp := List.find?_some h
  simpa using hp

/-- C1: every tag in the parser output is a member of the supplied
existing-tag set, and it is the canonical-cased form: the first existing
name matching it case-insensitively is the entry itself. -/
theorem promptTags_sound (prompt : Str) (existing : List Str) (t : Str)
    (ht : t ∈ promptTags prompt existing) :
    t ∈ existing ∧ existing.find? (fun g => jsLower g == jsLower t) = some t := by
  unfold promptTags at ht
  rcases List.mem_filterMap.mp ht with ⟨c, _, hfind⟩
  have hmem := matchTag_mem hfind
  have hlow := matchTag_lower hfind
  unfold matchTag at hfind
  subst hlow
  exact ⟨hmem, hfind⟩

/-- Witness for C1 at the prompt "cat" and existing set ["Cat"]. -/
theorem promptTags_sound_witness :
    "Cat".data ∈ ["Cat".data] ∧
    ["Cat".data].find? (fun g => jsLower g == jsLower "Cat".data) = some "Cat".data :=
  promptTags_sound "cat".data ["Cat".data] "Cat".data (by decide)

/-! ## Uniqueness of the prompt tag output (C2) -/

/-- Indices of the enumerated list are pairwise distinct. -/
theorem pairwise_ne_fst_enum {α : Type} (l : List α) :
    l.enum.Pairwise (fun a b => a.1 ≠ b.1) := by
  have h1 : (l.enum.map Prod.fst).Pairwise (· ≠ ·) := by
    rw [List.enum_map_fst]
    exact List.nodup_range l.length
  exact List.pairwise_map.mp h1

/-- The deduplication filter keeps pairwise distinct values: two kept
entries with equal values would both equal the first index of that
value. -/
theorem dedupFirst_nodup (l : List Str) : (dedupFirst l).Nodup := by
  unfold dedupFirst
  refine List.pairwise_map.mpr ?_
  have hfst : (l.enum.filter (fun p => l.findIdx (· == p.2) == p.1)).Pairwise
      (fun a b => a.1 ≠ b.1) :=
    List.Pairwise.sublist (List.filter_sublist _) (pairwise_ne_fst_enum l)
  refine List.pairwise_iff_get.mpr ?_
  intro i j hij heq
  have h1 := List.pairwise_iff_get.mp hfst i j hij
  have m1 := List.get_mem _ i.1 i.2
  have m2 := List.get_mem _ j.1 j.2
  have p1 := (List.mem_filter.mp m1).2
  have p2 := (List.mem_filter.mp m2).2
  apply h1
  have e1 : l.findIdx (· == ((l.enum.filter
      (fun p => l.findIdx (· == p.2) == p.1)).get i).2) = ((l.enum.filter
      (fun p => l.findIdx (· == p.2) == p.1)).get i).1 := by simpa using p1
  have e2 : l.findIdx (· == ((l.enum.filter
      (fun p => l.findIdx (· == p.2) == p.1)).get j).2) = ((l.enum.filter
      (fun p => l.findIdx (· == p.2) == p.1)).get j).1 := by simpa using p2
  rw [← e1, ← e2, heq]

/-- The deduplicated list is an order-preserving subsequence of the
original list. -/
theorem dedupFirst_sublist (l : List Str) : (dedupFirst l).Sublist l := by
  unfold dedupFirst
  have h := List.Sublist.map Prod.snd
    (List.filter_sublist (p := fun p => l.findIdx (· == p.2) == p.1) l.enum)
  rwa [List.enum_map_snd] at h

/-- Transport a pairwise relation through `filterMap`. -/
theorem pairwise_filterMap_of {α β : Type} {R : α → α → Prop} {S : β → β → Prop}
    (f : α → Option β)
    (h : ∀ a b x y, R a b → f a = some x → f b = some y → S x y) :
    ∀ l : List α, l.Pairwise R → (l.filterMap f).Pairwise S := by
  intro l
  induction l with
  | nil => intro _; simp
  | cons a l ih =>
    intro hp
    rcases List.pairwise_cons.mp hp with ⟨hhead, htail⟩
    cases hfa : f a with
    | none => rw [List.filterMap_cons_none hfa]; exact ih htail
    | some x =>
      rw [List.filterMap_cons_some hfa]
      refine List.pairwise_cons.mpr ⟨?_, ih htail⟩
      intro y hy
      rcases List.mem_filterMap.mp hy with ⟨b, hb, hfb⟩
      exact h a b x y (hhead b hb) hfa hfb

/-- The lowercased image of the lookup stage is an order-preserving
subsequence of the candidate stream it consumed. -/
theorem map_jsLower_filterMap_sublist (ex : List Str) :
    ∀ m : List Str, ((m.filterMap (matchTag ex)).map jsLower).Sublist m := by
  intro m
  induction m with
  | nil => simp
  | cons c m ih =>
    cases hfc : matchTag ex c with
    | none =>
      rw [List.filterMap_cons_none hfc]
      exact ih.cons c
    | some t =>
      rw [List.filterMap_cons_some hfc, List.map_cons, matchTag_lower hfc]
      exact ih.cons₂ c

/-- C2: no two entries of the parser output are equal under
case-insensitive comparison, and the output is order-preserving: its
lowercased form is a subsequence of the first-occurrence deduplication
of the candidate stream, which itself is a subsequence of the candidate
stream. -/
theorem promptTags_unique (prompt : Str) (existing : List Str) :
    (promptTags prompt existing).Pairwise (fun a b => jsLower a ≠ jsLower b) ∧
    ((promptTags prompt existing).map jsLower).Sublist
      (dedupFirst (promptCandidates prompt)) ∧
    (dedupFirst (promptCandidates prompt)).Sublist (promptCandidates prompt) := by
  refine ⟨?_, ?_, dedupFirst_sublist _⟩
  · unfold promptTags
    refine pairwise_filterMap_of (matchTag existing) (R := (· ≠ ·)) ?_ _ ?_
    · intro a b x y hab hfa hfb
      rw [matchTag_lower hfa, matchTag_lower hfb]
      exact hab
    · exact (dedupFirst_nodup _).filter _
  · unfold promptTags
    exact (map_jsLower_filterMap_sublist existing _).trans (List.filter_sublist _)

/-! ## Filename derivation characterization (C3) -/

/-- The first chunk of a single-character split is the prefix before the
first occurrence of the separator. -/
theorem jsSplitAux_head (c : Char) :
    ∀ (fuel : Nat) (acc s : Str), s.length ≤ fuel →
      (jsSplitAux [c] fuel acc s).headD [] = acc.reverse ++ s.takeWhile (· != c) := by
  intro fuel
  induction fuel with
  | zero =>
    intro acc s hlen
    have hs : s = [] := List.eq_nil_of_length_eq_zero (Nat.le_zero.mp hlen)
    subst hs
    simp [jsSplitAux]
  | succ fuel ih =>
    intro acc s hlen
    cases s with
    | nil => simp [jsSplitAux]
    | cons a as =>
      by_cases hac : c = a
      · subst hac
        have hpre : startsWithB [c] (c :: as) = true := by
          simp [startsWithB, List.isPrefixOf]
        simp [jsSplitAux, hpre, List.takeWhile_cons]
      · have hpre : startsWithB [c] (a :: as) = false := by
          simp only [startsWithB, List.isPrefixOf, Bool.and_eq_false_imp]
          simp [beq_eq_false_iff_ne]
          exact hac
        have hbne : (a != c) = true := by
          simp [bne, beq_eq_false_iff_ne]
          exact fun h => hac h.symm
        simp only [jsSplitAux, hpre, Bool.false_eq_true, if_false,
          List.takeWhile_cons, hbne, if_pos]
        rw [ih (a :: acc) as (by simpa using Nat.succ_le_succ_iff.mp hlen)]
        simp

/-- The first chunk of a single-character split. -/
theorem jsSplit_head_single (c : Char) (s : Str) :
    (jsSplit [c] s).headD [] = s.takeWhile (· != c) := by
  unfold jsSplit
  rw [if_neg (by simp)]
  simpa using jsSplitAux_head c s.length [] s (Nat.le_refl _)

/-- Two nested `takeWhile` runs collapse into one with the conjoined
predicate. -/
theorem takeWhile_andB (p q : Char → Bool) :
    ∀ s : Str, (s.takeWhile p).takeWhile q = s.takeWhile (fun c => p c && q c) := by
  intro s
  induction s with
  | nil => simp
  | cons a as ih =>
    by_cases hp : p a
    · by_cases hq : q a
      · simp [List.takeWhile_cons, hp, hq, ih]
      · simp [List.takeWhile_cons, hp, hq]
    · simp [List.takeWhile_cons, hp]

/-- Truncating at the first index of a character is taking while the
character differs. -/
theorem take_findIdx_eq_takeWhile (c : Char) :
    ∀ s : Str, s.take (s.findIdx (· == c)) = s.takeWhile (· != c) := by
  intro s
  induction s with
  | nil => simp
  | cons a as ih =>
    by_cases hac : a = c
    · subst hac
      simp [List.findIdx_cons, List.takeWhile_cons, bne]
    · have h1 : (a == c) = false := beq_eq_false_iff_ne.mpr hac
      have h2 : (a != c) = true := by simp [bne, h1]
      simp [List.findIdx_cons, List.takeWhile_cons, h1, h2, ih]

/-- The filename derivation as the spec words it, with the two
divergences made explicit: the data-url guard matches only urls starting
with the literal `data:image/`, and the segment taken is the last
slash-separated chunk of the whole url string. -/
def specFilenameFromUrl (url fallback : Str) : Str :=
  let seg := ((jsSplit ['/'] url).getLastD []).takeWhile
    (fun ch => ch != '#' && ch != '?')
  if startsWithB "data:image/".data url || !(seg.contains '.') then fallback
  else seg.takeWhile (· != '.')

/-- C3 counterexample: a non-image data url with a dot in its last
segment does not return the fallback (the guard checks only the literal
prefix `data:image/`), and a url whose fragment contains a slash loses
the true path segment (the split runs over the whole url string). -/
theorem filenameFromUrl_counterexample :
    filenameFromUrl "data:text/plain,a.b".data "fallback".data = "plain,a".data ∧
    startsWithB "data:".data "data:text/plain,a.b".data = true ∧
    "plain,a".data ≠ "fallback".data ∧
    filenameFromUrl "https://x.com/a.jpg#f/g".data "fb".data = "fb".data ∧
    "fb".data ≠ "a".data := by decide

/-- C3 amended: the source filename derivation equals the corrected
description (last slash-separated chunk of the url string, truncated at
the first hash and question mark; fallback exactly when the url starts
with the literal `data:image/` or the chunk has no dot; else the chunk
truncated at the first dot), and the two concrete examples of the claim
hold. -/
theorem filenameFromUrl_amended :
    (∀ url fallback : Str,
      filenameFromUrl url fallback = specFilenameFromUrl url fallback) ∧
    filenameFromUrl "https://x.com/a/photo.jpg?x=1".data "fallback".data
      = "photo".data ∧
    filenameFromUrl "data:image/png;base64,AAAA".data "fallback".data
      = "fallback".data := by
  refine ⟨?_, by decide, by decide⟩
  intro url fallback
  unfold filenameFromUrl specFilenameFromUrl
  simp only [jsSplit_head_single, takeWhile_andB, take_findIdx_eq_takeWhile]

/-! ## Step 1 of the prompt pipeline (C4) -/

/-- A pattern is detected at the front of its own extension. -/
theorem startsWithB_append (pat rest : Str) : startsWithB pat (pat ++ rest) = true := by
  unfold startsWithB
  induction pat with
  | nil => simp [List.isPrefixOf]
  | cons a as ih => simp [List.isPrefixOf, ih]

/-- Replacing the first occurrence on a string that begins with the
pattern substitutes at position zero. -/
theorem replaceFirst_strip (pat repl rest : Str) (hne : pat ≠ []) :
    replaceFirst pat repl (pat ++ rest) = repl ++ rest := by
  unfold replaceFirst
  rw [if_neg hne]
  cases pat with
  | nil => cases hne rfl
  | cons p ps =>
    have hpre : startsWithB (p :: ps) (p :: (ps ++ rest)) = true := by
      simpa using startsWithB_append (p :: ps) rest
    show replaceFirstAux (p :: ps) repl ((ps ++ rest).length + 1)
      (p :: (ps ++ rest)) = repl ++ rest
    simp only [replaceFirstAux, hpre, if_pos]
    rw [← List.cons_append, List.drop_left]

/-- Replacing a pattern that occurs nowhere leaves the string unchanged. -/
theorem replaceFirstAux_id_of_not_contains (pat repl : Str) :
    ∀ (fuel : Nat) (s : Str), containsSeq pat s = false →
      replaceFirstAux pat repl fuel s = s := by
  intro fuel
  induction fuel with
  | zero => intro s _; rfl
  | succ fuel ih =>
    intro s h
    cases s with
    | nil => rfl
    | cons a as =>
      have h2 : startsWithB pat (a :: as) = false ∧ containsSeq pat as = false := by
        simpa [containsSeq, Bool.or_eq_false_iff] using h
      simp only [replaceFirstAux, h2.1, Bool.false_eq_true, if_false]
      rw [ih as h2.2]

/-- Replacing a pattern that occurs nowhere leaves the string unchanged. -/
theorem replaceFirst_id_of_not_contains (pat repl s : Str)
    (h : containsSeq pat s = false) : replaceFirst pat repl s = s := by
  unfold replaceFirst
  by_cases hp : pat = []
  · rw [if_pos hp]
  · rw [if_neg hp]
    exact replaceFirstAux_id_of_not_contains pat repl s.length s h

/-- C4 counterexample: the line "cat #!allusion dog" survives the filter
(it does not start with a hash) and does not start with the marker, yet
step 1 alters it by removing the mid-line marker occurrence, so the
claim that all surviving non-marker lines are left unchanged fails. -/
theorem promptStep1_counterexample :
    promptStep1 "cat #!allusion dog".data = ["cat dog".data] ∧
    keepLine "cat #!allusion dog".data = true ∧
    startsWithB "#!allusion ".data (jsTrim "cat #!allusion dog".data) = false ∧
    "cat dog".data ≠ "cat #!allusion dog".data := by decide

/-- C4 amended: step 1 drops exactly those lines whose trimmed form
starts with a hash but not with the marker, and from each surviving line
removes the first occurrence of the substring `#!allusion ` wherever it
appears: a marker-prefixed line loses exactly the prefix, and a line not
containing the substring at all is left unchanged. -/
theorem promptStep1_amended :
    (∀ prompt, promptStep1 prompt =
      ((jsSplit "\n".data prompt).filter keepLine).map stripMarker) ∧
    (∀ line, keepLine line = false ↔
      (startsWithB "#".data (jsTrim line) = true ∧
       startsWithB "#!allusion ".data (jsTrim line) = false)) ∧
    (∀ rest, stripMarker ("#!allusion ".data ++ rest) = rest) ∧
    (∀ line, containsSeq "#!allusion ".data line = false →
      stripMarker line = line) := by
  refine ⟨fun _ => rfl, ?_, ?_, ?_⟩
  · intro line
    unfold keepLine
    cases h1 : startsWithB "#".data (jsTrim line) <;>
      cases h2 : startsWithB "#!allusion ".data (jsTrim line) <;> simp
  · intro rest
    unfold stripMarker
    simpa using replaceFirst_strip "#!allusion ".data [] rest (by decide)
  · intro line h
    exact replaceFirst_id_of_not_contains _ _ _ h

/-- Witness for the amended C4: a line without the marker substring is
left unchanged by the theorem itself, at the concrete line "cat". -/
theorem promptStep1_amended_witness :
    containsSeq "#!allusion ".data "cat".data = false ∧
    stripMarker "cat".data = "cat".data :=
  ⟨by decide, promptStep1_amended.2.2.2 "cat".data (by decide)⟩

/-! ## Final filename of the import (C6) -/

/-- C6 counterexample: the extension check is a bare suffix test on the
subtype string, without the separating dot.  The filename "catjpeg"
lacks the extension ".jpeg", yet the subtype is not appended because the
name already ends in the characters "jpeg"; the posted filename is the
unchanged "catjpeg". -/
theorem filenameWithExtension_counterexample :
    filenameWithExtension "catjpeg".data "image/jpeg".data = "catjpeg".data ∧
    endsWithB ".jpeg".data "catjpeg".data = false ∧
    "catjpeg".data ≠ "catjpeg".data ++ ".jpeg".data ∧
    ((importImage "catjpeg".data "u".data none [] (.ok "b".data "image/jpeg".data)
        true ⟨none, 0, [], none, none⟩).2.map ClipItem.filename)
      = some (some "catjpeg".data) := by decide

/-- C6 amended: the filename posted by the import is the given filename
with the content subtype appended after a dot exactly when the given
filename does not already end with the subtype string (the suffix check
does not require a preceding dot). -/
theorem filenameWithExtension_amended (filename url base64 blobType : Str)
    (pageUrl : Option Str) (tagNames : List Str) (postOk : Bool) (s : BgState) :
    ((importImage filename url pageUrl tagNames (.ok base64 blobType) postOk s).2.map
        ClipItem.filename) = some (some (filenameWithExtension filename blobType)) ∧
    (endsWithB ((jsSplit "/".data blobType).getD 1 []) filename = true →
      filenameWithExtension filename blobType = filename) ∧
    (endsWithB ((jsSplit "/".data blobType).getD 1 []) filename = false →
      filenameWithExtension filename blobType =
        filename ++ '.' :: (jsSplit "/".data blobType).getD 1 []) := by
  refine ⟨?_, ?_, ?_⟩
  · cases postOk <;> rfl
  · intro h
    simp only [filenameWithExtension, h, if_pos]
  · intro h
    simp only [filenameWithExtension, h, Bool.false_eq_true, if_false]

/-- Witness for the amended C6: the subtype is appended to "photo". -/
theorem filenameWithExtension_amended_witness :
    filenameWithExtension "photo".data "image/jpeg".data =
      "photo".data ++ '.' :: (jsSplit "/".data "image/jpeg".data).getD 1 [] :=
  (filenameWithExtension_amended "photo".data "u".data "b".data "image/jpeg".data
      none [] true ⟨none, 0, [], none, none⟩).2.2 (by decide)

/-! ## Failure path of the import (C7) -/

/-- Value of a digit character produced by `digitChar`. -/
theorem digitChar_val {n : Nat} (h : n < 10) : (digitChar n).toNat - 48 = n := by
  interval_cases n <;> rfl

/-- Appending a digit multiplies the accumulated value by ten. -/
theorem strVal_append_digit (a : Str) (d : Char) :
    strVal (a ++ [d]) = strVal a * 10 + (d.toNat - 48) := by
  unfold strVal
  rw [List.foldl_append]
  rfl

/-- The decimal value reading is a left inverse of the digit printing,
for any sufficient fuel. -/
theorem strVal_natToStrAux : ∀ (fuel n : Nat), n < 10 ^ fuel →
    strVal (natToStrAux fuel n) = n := by
  intro fuel
  induction fuel with
  | zero =>
    intro n h
    have h0 : n = 0 := by simpa using h
    subst h0
    rfl
  | succ fuel ih =>
    intro n h
    by_cases h10 : n < 10
    · have hd := digitChar_val h10
      simp only [natToStrAux, h10, if_pos]
      unfold strVal
      simp only [List.foldl_cons, List.foldl_nil]
      omega
    · simp only [natToStrAux, h10, if_false]
      rw [strVal_append_digit]
      have hdiv : n / 10 < 10 ^ fuel := by
        rw [pow_succ] at h
        exact (Nat.div_lt_iff_lt_mul (by norm_num)).mpr h
      rw [ih _ hdiv, digitChar_val (Nat.mod_lt _ (by norm_num))]
      omega

/-- The decimal printing of naturals is injective. -/
theorem natToStr_injective : Function.Injective natToStr := by
  intro a b h
  have ha : strVal (natToStr a) = a :=
    strVal_natToStrAux (a + 1) a
      (lt_of_lt_of_le (Nat.lt_pow_self (by norm_num) a)
        (Nat.pow_le_pow_right (by norm_num) (Nat.le_succ a)))
  have hb : strVal (natToStr b) = b :=
    strVal_natToStrAux (b + 1) b
      (lt_of_lt_of_le (Nat.lt_pow_self (by norm_num) b)
        (Nat.pow_le_pow_right (by norm_num) (Nat.le_succ b)))
  rw [← ha, ← hb, h]

/-- Notification ids built from distinct counters are distinct. -/
theorem notifId_injective : Function.Injective notifId := by
  intro a b h
  exact natToStr_injective (List.append_cancel_left h)

/-- C7: when the POST to the import route fails, the whole attempt is
absorbed by the catch branch (the model is a total function, nothing
propagates): the persisted item is marked failed, the badge turns red,
exactly one new clickable notification is appended, keyed by the
incrementing counter, and under the invariant that all earlier failure
notifications were keyed by earlier counter values, the new key differs
from every previously created one. -/
theorem importImage_postFailure (filename url : Str) (pageUrl : Option Str)
    (tagNames : List Str) (base64 blobType : Str) (s : BgState)
    (hInv : ∀ nt ∈ s.notifications, ∃ i ∈ List.range s.errCount, nt.id = notifId i) :
    (∃ it, (importImage filename url pageUrl tagNames
        (.ok base64 blobType) false s).1.storage = some it ∧ it.error = some true) ∧
    (importImage filename url pageUrl tagNames
        (.ok base64 blobType) false s).1.badgeColor = some redBadge ∧
    (importImage filename url pageUrl tagNames
        (.ok base64 blobType) false s).1.notifications
      = s.notifications ++ [⟨notifId s.errCount, true⟩] ∧
    (importImage filename url pageUrl tagNames
        (.ok base64 blobType) false s).1.errCount = s.errCount + 1 ∧
    (∀ nt ∈ s.notifications, nt.id ≠ notifId s.errCount) := by
  refine ⟨⟨_, rfl, rfl⟩, rfl, rfl, rfl, ?_⟩
  intro nt hnt hid
  rcases hInv nt hnt with ⟨i, hi, hidEq⟩
  have h2 : notifId i = notifId s.errCount := by rw [← hidEq, hid]
  have h3 : i = s.errCount := notifId_injective h2
  have h4 : i < s.errCount := List.mem_range.mp hi
  omega

/-- Witness for C7: the theorem applied to a state holding one earlier
failure notification shows the fresh key differs from the old one. -/
theorem importImage_postFailure_witness : notifId 0 ≠ notifId 1 :=
  (importImage_postFailure "f".data "u".data none [] "b".data "image/jpeg".data
      ⟨none, 1, [⟨notifId 0, true⟩], none, none⟩ (by decide)).2.2.2.2
    ⟨notifId 0, true⟩ (by decide)

/-! ## Tags endpoint failure during prompt parsing (C8) -/

/-- C8 counterexample: with the tags fetch failing, the external-message
handler aborts with an error before any import is issued; it does not
proceed with an untagged import as the claim states. -/
theorem handleSendImage_counterexample :
    handleSendImage none (some "title".data)
        ⟨"https://x.com/a.png".data, "alt".data, "page".data, some "cat".data⟩
      = .error () ∧
    (Except.error () : Except Unit ImportCall) ≠
      .ok ⟨filenameFromUrl "https://x.com/a.png".data "title".data,
           "https://x.com/a.png".data, some "page".data, []⟩ :=
  ⟨rfl, fun h => Except.noConfusion h⟩

/-- C8 amended: an unreachable or malformed tags endpoint degrades to an
empty tag list only in the popup getTags route, which catches the error;
in the prompt-parsing path the fetch is unguarded, the handler rejects,
and the import does not proceed at all. -/
theorem tagsFetchFailure_behavior :
    getTagsRoute none = [] ∧
    (∀ (tabTitle : Option Str) (payload : SendImagePayload),
      handleSendImage none tabTitle payload = .error ()) :=
  ⟨rfl, fun _ _ => rfl⟩

/-! ## Notification click retry path (C9) -/

/-- C9: the notifications onClicked API supplies only the notification
id, so the second listener parameter is undefined and the guard
comparing it strictly against zero is never satisfied: clicking a
failure notification never re-invokes the import, although the
notification text promises a retry on click.  Had the guard passed, the
re-invocation would carry the stored filename and url with an empty tag
list, as shown by the second conjunct. -/
theorem notificationClicked_noRetry :
    notificationClicked "import-error-0".data none
        (some ⟨some "cat.jpeg".data, some "https://x.com/cat.jpeg".data,
               some "b64".data, some ["cat".data], some "p".data, some false⟩)
      = none ∧
    notificationClicked "import-error-0".data (some 0)
        (some ⟨some "cat.jpeg".data, some "https://x.com/cat.jpeg".data,
               some "b64".data, some ["cat".data], some "p".data, some false⟩)
      = some (some "cat.jpeg".data, some "https://x.com/cat.jpeg".data, none, []) :=
  ⟨rfl, rfl⟩

/-! ## Fetch failure erases the persisted item (C10) -/

/-- C10: when the initial fetch-and-encode fails, the catch branch
persists the error flag on the still-empty local item, so the stored
slot is overwritten by a record with every field absent except the error
flag, whatever was stored before; and no POST is issued. -/
theorem importImage_fetchFailure (filename url : Str) (pageUrl : Option Str)
    (tagNames : List Str) (postOk : Bool) (s : BgState) :
    (importImage filename url pageUrl tagNames .fail postOk s).1.storage =
      some ⟨none, none, none, none, none, some true⟩ ∧
    (importImage filename url pageUrl tagNames .fail postOk s).2 = none :=
  ⟨rfl, rfl⟩
